import Mathlib

/-!
Verification development for the stream-and-index layer of
`data_handler.py` (kaldi-python-io).

Strings are modelled as `List Char`; file bytes as `List Nat`.  The binary
payload codec (`iobase.py`) is an external collaborator of this layer and is
not part of the embedded sources: the pieces of it this layer relies on
(record framing: key token, binary sentinel, payload) are modelled from the
spec and marked as such.  Fallible Python code (exceptions) is embedded as
`Except` / `Option` results.
-/

namespace DataHandler

/-- Python strings are modelled as lists of characters. -/
abbrev Str := List Char

/-- The special address that denotes the standard stream. -/
def dash : Str := ['-']

/-- Whitespace predicate of Python's `str.split()` / `str.strip()`:
space, tab, newline, carriage return, vertical tab, form feed. -/
def pyIsSpace (c : Char) : Bool :=
  c = ' ' || c = '\t' || c = '\n' || c = '\r' || c = '\x0b' || c = '\x0c'

/-- Model of Python's `str.strip()`: drop leading and trailing whitespace. -/
def pyStrip (s : Str) : Str :=
  ((s.dropWhile pyIsSpace).reverse.dropWhile pyIsSpace).reverse

/-- Worker for `pySplit`: `acc` holds the (reversed) characters of the word
currently being scanned. -/
def pyTokensAux : Str → Str → List Str
  | [], acc => if acc = [] then [] else [acc.reverse]
  | c :: cs, acc =>
    if pyIsSpace c then
      if acc = [] then pyTokensAux cs [] else acc.reverse :: pyTokensAux cs []
    else pyTokensAux cs (c :: acc)

/-- Model of Python's `str.split()` with no separator argument: split on runs
of whitespace, discarding empty tokens. -/
def pySplit (s : Str) : List Str :=
  pyTokensAux s []

/-- Tokenisation performed on each script line: `raw_line.strip().split()`. -/
def scpTokens (raw : Str) : List Str :=
  pySplit (pyStrip raw)

/-- Model of Python's `str.split(":")`: split on every colon, keeping empty
pieces (so the result is never empty). -/
def splitOnChar (c : Char) : Str → List Str
  | [] => [[]]
  | a :: s =>
    if a = c then [] :: splitOnChar c s
    else
      match splitOnChar c s with
      | [] => [[a]]
      | t :: ts => (a :: t) :: ts

/-- Model of Python's `sep.join(tokens)` for a one-character separator. -/
def joinChar (c : Char) : List Str → Str
  | [] => []
  | [t] => t
  | t :: ts => t ++ c :: joinChar c ts

/-- Decimal digit character, as produced by Python's `"{:d}".format`. -/
def digitChar : Nat → Char
  | 0 => '0'
  | 1 => '1'
  | 2 => '2'
  | 3 => '3'
  | 4 => '4'
  | 5 => '5'
  | 6 => '6'
  | 7 => '7'
  | 8 => '8'
  | 9 => '9'
  | _ => '0'

/-- Worker for `natToDigits`, structurally recursive on a fuel bound (any
fuel at least the value yields the digit string). -/
def natToDigitsAux : Nat → Nat → Str
  | _, 0 => []
  | 0, _ + 1 => []
  | fuel + 1, n + 1 =>
    natToDigitsAux fuel ((n + 1) / 10) ++ [digitChar ((n + 1) % 10)]

/-- Digit string of a positive natural (empty for zero), most significant
digit first. -/
def natToDigits (n : Nat) : Str :=
  natToDigitsAux n n

/-- Model of Python's `"{:d}".format(n)` for a natural number. -/
def natRepr (n : Nat) : Str :=
  if n = 0 then ['0'] else natToDigits n

/-- Decimal digit test. -/
def isDigitChar (c : Char) : Bool :=
  48 ≤ c.toNat && c.toNat ≤ 57

/-- Accumulate the value of a digit string, most significant digit first. -/
def digitsVal : Str → Nat → Nat
  | [], acc => acc
  | c :: cs, acc => digitsVal cs (10 * acc + (c.toNat - 48))

/-- Model of Python's `int()` applied to the offset token of a script
address, restricted to unsigned decimal literals (the only form this layer
ever writes); any other token is a conversion error (`none`). -/
def pyInt? (s : Str) : Option Nat :=
  if s ≠ [] ∧ ∀ c ∈ s, isDigitChar c = true then some (digitsVal s 0) else none

/-- Errors raised while parsing a script (index) file, `parse_scps`:
`formatError` is the `RuntimeError` for a line whose token count is not two
(1-based line number, raw line content); `duplicateKey` is the `ValueError`
for a repeated key (key and script-file identity); the last two model the
`ValueError`s of `ScriptReader`'s address processor. -/
inductive ScpErr where
  | formatError (line : Nat) (raw : Str)
  | duplicateKey (key : Str) (scpPath : Str)
  | badScriptAddress
  | badOffset (tok : Str)
deriving DecidableEq

/-- First-match association-list lookup; models both `key in scp_dict` and
`scp_dict[key]` (the dict is insertion-ordered and, past `parse_scps`,
duplicate-free). -/
def alookup {α : Type} (k : Str) : List (Str × α) → Option α
  | [] => none
  | e :: rest => if e.1 = k then some e.2 else alookup k rest

/-- Worker for `parse_scps`: `acc` is the insertion-ordered dict built so
far, `line` the number of lines already consumed.  Mirrors the loop body:
tokenise (`strip().split()`), bump the line counter, demand exactly two
tokens, reject duplicate keys, then apply the address processor and insert. -/
def parseScpsAux {α : Type} (proc : Str → Except ScpErr α) (scpPath : Str) :
    List Str → List (Str × α) → Nat → Except ScpErr (List (Str × α))
  | [], acc, _ => .ok acc
  | raw :: rest, acc, line =>
    match scpTokens raw with
    | [key, addr] =>
      if (alookup key acc).isSome then .error (.duplicateKey key scpPath)
      else
        match proc addr with
        | .error e => .error e
        | .ok v => parseScpsAux proc scpPath rest (acc ++ [(key, v)]) (line + 1)
    | _ => .error (.formatError (line + 1) raw)

/-- Model of `parse_scps(scp_path, addr_processor)`: the script file is the
list of its raw lines (each as yielded by line iteration, trailing newline
included). -/
def parse_scps {α : Type} (proc : Str → Except ScpErr α) (scpPath : Str)
    (lines : List Str) : Except ScpErr (List (Str × α)) :=
  parseScpsAux proc scpPath lines [] 0

/-- The default address processor, `lambda x: x`. -/
def idAddrProcessor (a : Str) : Except ScpErr Str := .ok a

/-- The first token of a script line (used to speak about "the key of a
line" in insertion-order statements). -/
def lineKey (raw : Str) : Str := (scpTokens raw).headI

/-- `ScriptReader`'s address processor: split the raw address on colons,
reject addresses with no colon, rejoin all but the last token as the path
and convert the last token to an integer offset. -/
def scriptAddrProcessor (addr : Str) : Except ScpErr (Str × Nat) :=
  let toks := splitOnChar ':' addr
  if toks.length = 1 then .error .badScriptAddress
  else
    match toks.reverse with
    | [] => .error .badScriptAddress
    | last :: revInit =>
      match pyInt? last with
      | none => .error (.badOffset last)
      | some off => .ok (joinChar ':' revInit.reverse, off)

/-- Errors of `Reader.__getitem__`: the `KeyError` for an integer selector
out of range (requested index and bound) and the `KeyError` for an absent
string key. -/
inductive LookupErr where
  | outOfRange (i : Int) (n : Nat)
  | missingKey (k : Str)
deriving DecidableEq

/-- The random-access `Reader` base class: its state after `__init__` is the
insertion-ordered index built by `parse_scps`. -/
structure Reader (α : Type) where
  index_dict : List (Str × α)
deriving DecidableEq

/-- Model of `self.index_keys = list(self.index_dict.keys())`. -/
def Reader.index_keys {α : Type} (r : Reader α) : List Str :=
  r.index_dict.map Prod.fst

/-- Model of `Reader.__len__`. -/
def Reader.len {α : Type} (r : Reader α) : Nat :=
  r.index_dict.length

/-- Model of `Reader.__getitem__`, parametrised by the subclass's `_load`
procedure `ld`.  Integer selectors are bounds-checked against
`len(self.index_keys)` and resolved through insertion order; the resolved or
given key then passes the membership check before `_load` runs. -/
def Reader.getitem {α β : Type} (ld : Str → β) (r : Reader α)
    (sel : Int ⊕ Str) : Except LookupErr β :=
  let keyE : Except LookupErr Str :=
    match sel with
    | .inl i =>
      if h : i ≥ (r.index_keys.length : Int) ∨ i < 0 then
        .error (.outOfRange i r.index_keys.length)
      else .ok (r.index_keys.get ⟨i.toNat, by omega⟩)
    | .inr k => .ok k
  match keyE with
  | .error e => .error e
  | .ok key =>
    if (alookup key r.index_dict).isSome then .ok (ld key)
    else .error (.missingKey key)

/-- A `__getitem__` call as a state transition: the method reads
`self.index_dict` / `self.index_keys` and assigns no attribute, so the
translation returns the receiver unchanged alongside the result. -/
def Reader.getitemCall {α β : Type} (ld : Str → β) (r : Reader α)
    (sel : Int ⊕ Str) : Except LookupErr β × Reader α :=
  (Reader.getitem ld r sel, r)

/-- Model of `Reader.__iter__`: one (key, `_load(key)`) pair per key of
`self.index_keys`, in order. -/
def Reader.iter {α β : Type} (ld : Str → β) (r : Reader α) : List (Str × β) :=
  r.index_keys.map fun k => (k, ld k)

/-- The kinds of byte stream `_fopen` can hand out (regular file, standard
stream, subprocess pipe output). -/
inductive IoStream where
  | stdoutS
  | stdinS
  | pipeOut (cmd : Str)
  | fileS (path : Str) (mode : String)
deriving DecidableEq

/-- Observable side effects of opening a source: spawning the subprocess of
a pipe address, or opening a regular file. -/
inductive Effect where
  | spawn (cmd : Str)
  | openFile (path : Str) (mode : String)
deriving DecidableEq

/-- Errors of `_fopen` / `pipe_fopen`: the `ValueError` for an unknown open
mode, the `RuntimeError` "Now only support input from pipe" for a pipe
address in a non-read mode, and the `FileNotFoundError` for a missing file
opened for reading. -/
inductive OpenErr where
  | unknownMode (mode : String)
  | pipeReadOnly
  | fileNotFound (path : Str)
deriving DecidableEq

/-- Model of `pipe_fopen(command, mode)`: the mode guard runs before the
subprocess is spawned, so the error branch carries no effects.  (The
background monitor thread the source also starts is a concurrency feature
outside this embedding.) -/
def pipe_fopen (command : Str) (mode : String) :
    List Effect × Except OpenErr IoStream :=
  if mode ≠ "rb" ∧ mode ≠ "r" then ([], .error .pipeReadOnly)
  else ([.spawn command], .ok (.pipeOut command))

/-- Model of `_fopen(fname, mode)`.  `fname` is `none` for Python `None`;
`exists?` stands for `os.path.exists`.  Branch order follows the source:
mode validity, falsy name, `"-"`, trailing-pipe address, literal path. -/
def ext_fopen (exists? : Str → Bool) (fname : Option Str) (mode : String) :
    List Effect × Except OpenErr (Option IoStream) :=
  if mode ≠ "w" ∧ mode ≠ "r" ∧ mode ≠ "wb" ∧ mode ≠ "rb" then
    ([], .error (.unknownMode mode))
  else
    match fname with
    | none => ([], .ok none)
    | some s =>
      if s = [] then ([], .ok none)
      else if s = dash then
        if mode = "w" ∨ mode = "wb" then ([], .ok (some .stdoutS))
        else ([], .ok (some .stdinS))
      else if s.getLast? = some '|' then
        let r := pipe_fopen s.dropLast mode
        (r.1, r.2.map some)
      else
        if (mode = "r" ∨ mode = "rb") ∧ exists? s = false then
          ([], .error (.fileNotFound s))
        else ([.openFile s mode], .ok (some (.fileS s mode)))

/-- The `Writer` base class after `__init__`: archive address and (possibly
nullified) script address. -/
structure Writer where
  ark_path : Str
  scp_path : Option Str
deriving DecidableEq

/-- Python truthiness of an optional string (`None` and `""` are falsy). -/
def truthy : Option Str → Bool
  | none => false
  | some s => !s.isEmpty

/-- Model of `Writer.__init__(ark_path, scp_path)`: when the archive goes to
standard output and a truthy script path was supplied, the script path is
dropped; the boolean records whether the warning was emitted. -/
def Writer.init (ark : Str) (scp : Option Str) : Writer × Bool :=
  if ark = dash ∧ truthy scp = true then
    ({ ark_path := ark, scp_path := none }, true)
  else ({ ark_path := ark, scp_path := scp }, false)

/-- Writer state once `__enter__` has opened the streams: the archive and
script files are modelled by the byte/line sequences written to them so far;
`scpOpen` records whether `self.scp_file` is a live stream. -/
structure AWState where
  ark_path : Str
  scpOpen : Bool
  archive : List Nat
  scpLines : List Str
deriving DecidableEq

/-- Model of `Writer.__enter__`: open the archive in `"wb"` and the script
in `"w"` through the extended open; an open error (e.g. a pipe address in a
write mode) aborts, otherwise writing starts from empty streams. -/
def Writer.enter (exists? : Str → Bool) (w : Writer) : Except OpenErr AWState :=
  match (ext_fopen exists? (some w.ark_path) "wb").2 with
  | .error e => .error e
  | .ok _ =>
    match (ext_fopen exists? w.scp_path "w").2 with
    | .error e => .error e
    | .ok scpStream =>
      .ok { ark_path := w.ark_path, scpOpen := scpStream.isSome,
            archive := [], scpLines := [] }

/-- Modelled from the spec: the archive frames each record as key token,
binary-format sentinel, payload (`io.write_token` of `iobase.py` is not part
of the embedded sources).  The key token is the key's character codes
followed by a separator byte, so the position after it is where the sentinel
begins. -/
def writeToken (key : Str) : List Nat :=
  key.map Char.toNat ++ [32]

/-- Modelled from the spec: the two-byte binary-format sentinel that
`io.write_binary_symbol` emits and `io.expect_binary` re-reads (framing of
`iobase.py`, external to the embedded sources). -/
def binSym : List Nat := [0, 66]

/-- The index line `"{}\t{}:{:d}\n".format(key, abspath, offset)` appended
by `ArchiveWriter.write`. -/
def fmtLine (key : Str) (apath : Str) (off : Nat) : Str :=
  key ++ ['\t'] ++ apath ++ [':'] ++ natRepr off ++ ['\n']

/-- Model of `ArchiveWriter.write(key, matrix)`, parametrised by the payload
encoder `enc` (`io.write_common_mat`) and `abspath` (`os.path.abspath`).
The archive receives token, sentinel, payload in that order; the offset is
captured between token and sentinel only when the archive is not standard
output; referencing the unset offset when formatting the index line (a
Python `NameError`) is the `none` result. -/
def ArchiveWriter.write {μ : Type} (enc : μ → List Nat) (abspath : Str → Str)
    (st : AWState) (key : Str) (m : μ) : Option AWState :=
  let a1 := st.archive ++ writeToken key
  let offset? : Option Nat := if st.ark_path ≠ dash then some a1.length else none
  let a2 := a1 ++ binSym ++ enc m
  if st.scpOpen then
    match offset? with
    | none => none
    | some off =>
      some { st with archive := a2,
                     scpLines := st.scpLines ++ [fmtLine key (abspath st.ark_path) off] }
  else some { st with archive := a2 }

/-- A sequence of `write` calls, the first failure aborting the rest. -/
def writeAll {μ : Type} (enc : μ → List Nat) (abspath : Str → Str)
    (st : AWState) : List (Str × μ) → Option AWState
  | [] => some st
  | r :: rs =>
    match ArchiveWriter.write enc abspath st r.1 r.2 with
    | none => none
    | some st' => writeAll enc abspath st' rs

/-- Model of `ScriptReader._load(key)` applied to the parsed address
`(path, offset)`: open the addressed file (`fs` maps a path to its byte
content, `none` when absent), seek to the offset, check the binary sentinel
(`io.expect_binary`), then let the external decoder `dec`
(`io.read_general_mat`) consume one record from the current position. -/
def ScriptReader.load {μ : Type} (dec : List Nat → Option μ)
    (fs : Str → Option (List Nat)) (e : Str × Nat) : Option μ :=
  match fs e.1 with
  | none => none
  | some bytes =>
    let rest := bytes.drop e.2
    if rest.take binSym.length = binSym then dec (rest.drop binSym.length)
    else none

/-- Building a `ScriptReader` over the script lines and reading one key:
parse the index with `ScriptReader`'s address processor, look the key up in
the insertion-ordered dict, and run `_load` on the recorded address. -/
def scriptReaderGet {μ : Type} (sp : Str) (fs : Str → Option (List Nat))
    (dec : List Nat → Option μ) (scpLines : List Str) (key : Str) : Option μ :=
  match parse_scps scriptAddrProcessor sp scpLines with
  | .error _ => none
  | .ok entries =>
    match alookup key entries with
    | none => none
    | some e => ScriptReader.load dec fs e

/-- Byte image of one written record: token, sentinel, encoded payload. -/
def recBytes {μ : Type} (enc : μ → List Nat) (r : Str × μ) : List Nat :=
  writeToken r.1 ++ binSym ++ enc r.2

/-- Archive content produced by writing `records` in order. -/
def archOf {μ : Type} (enc : μ → List Nat) (records : List (Str × μ)) : List Nat :=
  (records.map (recBytes enc)).flatten

/-- Script lines produced by writing `records` when the archive already
holds `base` bytes. -/
def linesOf {μ : Type} (enc : μ → List Nat) (apath : Str) (base : Nat) :
    List (Str × μ) → List Str
  | [] => []
  | r :: rs =>
    fmtLine r.1 apath (base + (writeToken r.1).length) ::
      linesOf enc apath (base + (recBytes enc r).length) rs

/-- Parsed index entries corresponding to `linesOf`. -/
def entriesOf {μ : Type} (enc : μ → List Nat) (apath : Str) (base : Nat) :
    List (Str × μ) → List (Str × (Str × Nat))
  | [] => []
  | r :: rs =>
    (r.1, (apath, base + (writeToken r.1).length)) ::
      entriesOf enc apath (base + (recBytes enc r).length) rs

/-! Lemmas about the whitespace tokeniser. -/

theorem pyTokensAux_cons_space {c : Char} {cs acc : Str} (h : pyIsSpace c = true)
    (ha : acc ≠ []) :
    pyTokensAux (c :: cs) acc = acc.reverse :: pyTokensAux cs [] := by
  simp [pyTokensAux, h, ha]

theorem pyTokensAux_cons_word {c : Char} {cs acc : Str} (h : pyIsSpace c = false) :
    pyTokensAux (c :: cs) acc = pyTokensAux cs (c :: acc) := by
  simp [pyTokensAux, h]

theorem pyTokensAux_nil_of_ne {acc : Str} (ha : acc ≠ []) :
    pyTokensAux [] acc = [acc.reverse] := by
  simp [pyTokensAux, ha]

theorem pyTokensAux_word : ∀ (w s acc : Str), (∀ c ∈ w, pyIsSpace c = false) →
    pyTokensAux (w ++ s) acc = pyTokensAux s (w.reverse ++ acc)
  | [], s, acc, _ => by simp
  | c :: w', s, acc, h => by
    have hc : pyIsSpace c = false := h c (by simp)
    rw [List.cons_append, pyTokensAux_cons_word hc,
      pyTokensAux_word w' s (c :: acc) (fun x hx => h x (by simp [hx]))]
    simp

theorem pyTokensAux_all_space : ∀ (s : Str), (∀ c ∈ s, pyIsSpace c = true) →
    pyTokensAux s [] = []
  | [], _ => rfl
  | c :: s, h => by
    have hc : pyIsSpace c = true := h c (by simp)
    simp only [pyTokensAux, hc, if_true, if_pos rfl]
    exact pyTokensAux_all_space s (fun x hx => h x (by simp [hx]))

/-- Splitting a line of the form `word ws word` (the shape of each script
line this layer writes, trailing newline included) yields the two words. -/
theorem pySplit_pair (w1 w2 : Str) (c : Char) (h1 : w1 ≠ [])
    (hw1 : ∀ x ∈ w1, pyIsSpace x = false) (hc : pyIsSpace c = true)
    (h2 : w2 ≠ []) (hw2 : ∀ x ∈ w2, pyIsSpace x = false) :
    pySplit (w1 ++ c :: w2) = [w1, w2] := by
  unfold pySplit
  rw [show w1 ++ c :: w2 = w1 ++ (c :: w2) from rfl, pyTokensAux_word w1 _ [] hw1,
    List.append_nil, pyTokensAux_cons_space hc (by simp [h1]),
    show w2 = w2 ++ [] from (List.append_nil w2).symm, pyTokensAux_word w2 [] [] hw2,
    List.append_nil, pyTokensAux_nil_of_ne (by simp [h2])]
  simp

/-! Lemmas about decimal digits and `natRepr` / `pyInt?`. -/

theorem digitChar_isDigit {d : Nat} (h : d < 10) : isDigitChar (digitChar d) = true := by
  interval_cases d <;> decide

theorem digitChar_toNat {d : Nat} (h : d < 10) : (digitChar d).toNat = 48 + d := by
  interval_cases d <;> decide

theorem natToDigitsAux_irrel : ∀ (n fuel1 fuel2 : Nat), n ≤ fuel1 → n ≤ fuel2 →
    natToDigitsAux fuel1 n = natToDigitsAux fuel2 n := by
  intro n
  induction n using Nat.strong_induction_on with
  | _ n ih =>
    intro fuel1 fuel2 h1 h2
    match n, fuel1, fuel2 with
    | 0, f1, f2 => cases f1 <;> cases f2 <;> rfl
    | m + 1, f1 + 1, f2 + 1 =>
      show natToDigitsAux f1 ((m + 1) / 10) ++ _
          = natToDigitsAux f2 ((m + 1) / 10) ++ _
      have hdiv : (m + 1) / 10 < m + 1 := Nat.div_lt_self (Nat.succ_pos m) (by decide)
      rw [ih ((m + 1) / 10) hdiv f1 f2 (by omega) (by omega)]

theorem natToDigits_eq (n : Nat) :
    natToDigits n = if n = 0 then [] else natToDigits (n / 10) ++ [digitChar (n % 10)] := by
  match n with
  | 0 => rfl
  | m + 1 =>
    rw [if_neg (Nat.succ_ne_zero m)]
    show natToDigitsAux m ((m + 1) / 10) ++ _ = _
    unfold natToDigits
    have hdiv : (m + 1) / 10 < m + 1 := Nat.div_lt_self (Nat.succ_pos m) (by decide)
    rw [natToDigitsAux_irrel ((m + 1) / 10) m ((m + 1) / 10) (by omega) (by omega)]

theorem natToDigits_ne_nil {n : Nat} (h : n ≠ 0) : natToDigits n ≠ [] := by
  rw [natToDigits_eq, if_neg h]
  simp

theorem natToDigits_digits (n : Nat) : ∀ c ∈ natToDigits n, isDigitChar c = true := by
  induction n using Nat.strong_induction_on with
  | _ n ih =>
    by_cases h : n = 0
    · subst h; rw [natToDigits_eq]; simp
    · rw [natToDigits_eq, if_neg h]
      intro c hc
      rcases List.mem_append.mp hc with hl | hr
      · exact ih (n / 10) (Nat.div_lt_self (Nat.pos_of_ne_zero h) (by decide)) c hl
      · rcases List.mem_singleton.mp hr with rfl
        exact digitChar_isDigit (Nat.mod_lt n (by decide))

theorem natRepr_ne_nil (n : Nat) : natRepr n ≠ [] := by
  unfold natRepr
  by_cases h : n = 0
  · simp [h]
  · simp [h, natToDigits_ne_nil h]

theorem natRepr_digits (n : Nat) : ∀ c ∈ natRepr n, isDigitChar c = true := by
  unfold natRepr
  by_cases h : n = 0
  · simp [h]; decide
  · simp only [h, if_false]
    exact natToDigits_digits n

theorem digit_not_space {c : Char} (h : isDigitChar c = true) : pyIsSpace c = false := by
  have h48 : 48 ≤ c.toNat := by
    simp only [isDigitChar, Bool.and_eq_true, decide_eq_true_eq] at h
    exact h.1
  cases hsp : pyIsSpace c
  · rfl
  · exfalso
    simp only [pyIsSpace, Bool.or_eq_true, decide_eq_true_eq] at hsp
    rcases hsp with ((((rfl | rfl) | rfl) | rfl) | rfl) | rfl <;>
      exact absurd h48 (by decide)

theorem digit_ne_colon {c : Char} (h : isDigitChar c = true) : c ≠ ':' := by
  rintro rfl
  simp [isDigitChar] at h

theorem digitsVal_append (xs ys : Str) (a : Nat) :
    digitsVal (xs ++ ys) a = digitsVal ys (digitsVal xs a) := by
  induction xs generalizing a with
  | nil => rfl
  | cons c cs ih => simp [digitsVal, ih]

theorem digitsVal_natToDigits (n : Nat) : ∀ a : Nat,
    digitsVal (natToDigits n) a = a * 10 ^ (natToDigits n).length + n := by
  induction n using Nat.strong_induction_on with
  | _ n ih =>
    intro a
    by_cases h : n = 0
    · subst h; rw [natToDigits_eq]; simp [digitsVal]
    · rw [natToDigits_eq, if_neg h, digitsVal_append,
        ih (n / 10) (Nat.div_lt_self (Nat.pos_of_ne_zero h) (by decide)) a]
      simp only [digitsVal, digitChar_toNat (Nat.mod_lt n (by decide)),
        List.length_append, List.length_singleton, pow_succ]
      have h48 : 48 + n % 10 - 48 = n % 10 := by omega
      rw [h48]
      generalize 10 ^ (natToDigits (n / 10)).length = K
      have hdm : 10 * (n / 10) + n % 10 = n := Nat.div_add_mod n 10
      calc 10 * (a * K + n / 10) + n % 10
          = a * (K * 10) + (10 * (n / 10) + n % 10) := by ring
        _ = a * (K * 10) + n := by rw [hdm]

theorem pyInt?_natRepr (n : Nat) : pyInt? (natRepr n) = some n := by
  unfold pyInt?
  rw [if_pos ⟨natRepr_ne_nil n, natRepr_digits n⟩]
  unfold natRepr
  by_cases h : n = 0
  · simp [h, digitsVal]
  · simp only [h, if_false]
    rw [digitsVal_natToDigits n 0]
    simp

/-! Lemmas about colon splitting and joining. -/

theorem splitOnChar_ne_nil (c : Char) : ∀ s : Str, splitOnChar c s ≠ []
  | [] => by simp [splitOnChar]
  | a :: s => by
    unfold splitOnChar
    by_cases h : a = c
    · simp [h]
    · simp only [h, if_false]
      cases hs : splitOnChar c s <;> simp

theorem splitOnChar_no_sep (c : Char) : ∀ s : Str, (∀ x ∈ s, x ≠ c) →
    splitOnChar c s = [s ]
  | [], _ => rfl
  | a :: s, h => by
    unfold splitOnChar
    rw [if_neg (h a (by simp)), splitOnChar_no_sep c s (fun x hx => h x (by simp [hx]))]

theorem splitOnChar_append_sep (c : Char) (ys : Str) (hys : ∀ x ∈ ys, x ≠ c) :
    ∀ xs : Str, splitOnChar c (xs ++ c :: ys) = splitOnChar c xs ++ [ys ]
  | [] => by
    simp only [List.nil_append]
    unfold splitOnChar
    rw [if_pos rfl, splitOnChar_no_sep c ys hys]
    rfl
  | a :: xs => by
    rw [List.cons_append]
    unfold splitOnChar
    by_cases h : a = c
    · rw [if_pos h, if_pos h, splitOnChar_append_sep c ys hys xs]
      simp
    · rw [if_neg h, if_neg h, splitOnChar_append_sep c ys hys xs]
      obtain ⟨t, ts, hts⟩ : ∃ t ts, splitOnChar c xs = t :: ts := by
        cases hx : splitOnChar c xs
        · exact absurd hx (splitOnChar_ne_nil c xs)
        · exact ⟨_, _, rfl⟩
      rw [hts]
      simp

theorem joinChar_splitOnChar (c : Char) : ∀ s : Str, joinChar c (splitOnChar c s) = s
  | [] => rfl
  | a :: s => by
    unfold splitOnChar
    obtain ⟨t, ts, hts⟩ : ∃ t ts, splitOnChar c s = t :: ts := by
      cases hx : splitOnChar c s
      · exact absurd hx (splitOnChar_ne_nil c s)
      · exact ⟨_, _, rfl⟩
    have hjoin : joinChar c (t :: ts) = s := by
      rw [← hts]; exact joinChar_splitOnChar c s
    by_cases h : a = c
    · subst h
      rw [if_pos rfl, hts]
      cases ts <;> simp_all [joinChar]
    · rw [if_neg h, hts]
      cases ts <;> simp_all [joinChar]

/-- The address written by `ArchiveWriter.write` is decoded back to exactly
the absolute path and offset it was built from. -/
theorem scriptAddrProcessor_fmt (p : Str) (o : Nat) :
    scriptAddrProcessor (p ++ [':'] ++ natRepr o) = .ok (p, o) := by
  unfold scriptAddrProcessor
  have hds : ∀ x ∈ natRepr o, x ≠ ':' :=
    fun x hx => digit_ne_colon (natRepr_digits o x hx)
  have hsplit : splitOnChar ':' (p ++ [':'] ++ natRepr o)
      = splitOnChar ':' p ++ [natRepr o] := by
    rw [show p ++ [':'] ++ natRepr o = p ++ ':' :: natRepr o from by simp]
    exact splitOnChar_append_sep ':' (natRepr o) hds p
  obtain ⟨t, ts, hts⟩ : ∃ t ts, splitOnChar ':' p = t :: ts := by
    cases hx : splitOnChar ':' p
    · exact absurd hx (splitOnChar_ne_nil ':' p)
    · exact ⟨_, _, rfl⟩
  have hlen : (splitOnChar ':' (p ++ [':'] ++ natRepr o)).length ≠ 1 := by
    rw [hsplit, hts]; simp
  rw [if_neg hlen, hsplit, List.reverse_append]
  simp only [List.reverse_singleton, List.singleton_append, pyInt?_natRepr o]
  rw [List.reverse_reverse, joinChar_splitOnChar ':' p]

/-! Lemmas about `pyStrip` and the tokenisation of written index lines. -/

theorem dropWhile_cons_of_not {c : Char} {s : Str} (h : pyIsSpace c = false) :
    (c :: s).dropWhile pyIsSpace = c :: s := by
  simp [List.dropWhile_cons, h]

theorem strip_trailing {xs : Str} {d : Char} (hd : pyIsSpace d = false) :
    ((xs ++ [d]).reverse.dropWhile pyIsSpace).reverse = xs ++ [d] := by
  rw [List.reverse_append]
  simp only [List.reverse_singleton, List.singleton_append, List.dropWhile_cons, hd]
  simp

theorem strip_trailing_nl (xs : Str) :
    ((xs ++ ['\n']).reverse.dropWhile pyIsSpace).reverse
      = (xs.reverse.dropWhile pyIsSpace).reverse := by
  rw [List.reverse_append]
  simp only [List.reverse_singleton, List.singleton_append, List.dropWhile_cons,
    show pyIsSpace '\n' = true from rfl]
  simp

/-- Stripping one of the index lines this layer writes removes exactly the
trailing newline. -/
theorem pyStrip_fmtLine (k p : Str) (o : Nat) (hk : k ≠ [])
    (hkw : ∀ c ∈ k, pyIsSpace c = false) :
    pyStrip (fmtLine k p o) = k ++ ['\t'] ++ p ++ [':'] ++ natRepr o := by
  obtain ⟨c, k', rfl⟩ : ∃ c k', k = c :: k' := by
    cases k with
    | nil => exact absurd rfl hk
    | cons c k' => exact ⟨c, k', rfl⟩
  have hc : pyIsSpace c = false := hkw c (by simp)
  obtain ⟨d, hd, hrepr⟩ : ∃ d, isDigitChar d = true ∧
      natRepr o = (natRepr o).dropLast ++ [d] := by
    refine ⟨(natRepr o).getLast (natRepr_ne_nil o), ?_, ?_⟩
    · exact natRepr_digits o _ (List.getLast_mem (natRepr_ne_nil o))
    · exact (List.dropLast_append_getLast (natRepr_ne_nil o)).symm
  unfold pyStrip fmtLine
  rw [show (c :: k') ++ ['\t'] ++ p ++ [':'] ++ natRepr o ++ ['\n']
      = c :: (k' ++ ['\t'] ++ p ++ [':'] ++ natRepr o ++ ['\n']) from by simp,
    dropWhile_cons_of_not hc,
    show c :: (k' ++ ['\t'] ++ p ++ [':'] ++ natRepr o ++ ['\n'])
      = ((c :: k') ++ ['\t'] ++ p ++ [':'] ++ natRepr o) ++ ['\n'] from by simp,
    strip_trailing_nl, hrepr,
    show (c :: k') ++ ['\t'] ++ p ++ [':'] ++ ((natRepr o).dropLast ++ [d])
      = ((c :: k') ++ ['\t'] ++ p ++ [':'] ++ (natRepr o).dropLast) ++ [d] from by simp,
    strip_trailing (digit_not_space hd)]

/-- Tokenising one of the index lines this layer writes yields exactly the
key and the raw address. -/
theorem scpTokens_fmtLine (k p : Str) (o : Nat) (hk : k ≠ [])
    (hkw : ∀ c ∈ k, pyIsSpace c = false) (hpw : ∀ c ∈ p, pyIsSpace c = false) :
    scpTokens (fmtLine k p o) = [k, p ++ [':'] ++ natRepr o] := by
  have haddr : ∀ c ∈ p ++ [':'] ++ natRepr o, pyIsSpace c = false := by
    intro c hc
    rcases List.mem_append.mp hc with hc1 | hcr
    · rcases List.mem_append.mp hc1 with hcp | hcc
      · exact hpw c hcp
      · rcases List.mem_singleton.mp hcc with rfl
        rfl
    · exact digit_not_space (natRepr_digits o c hcr)
  unfold scpTokens
  rw [pyStrip_fmtLine k p o hk hkw,
    show k ++ ['\t'] ++ p ++ [':'] ++ natRepr o
      = k ++ '\t' :: (p ++ [':'] ++ natRepr o) from by simp]
  exact pySplit_pair k (p ++ [':'] ++ natRepr o) '\t' hk hkw rfl
    (by simp) haddr

/-- A blank (all-whitespace) line strips to nothing and yields no tokens. -/
theorem scpTokens_all_space (l : Str) (h : ∀ c ∈ l, pyIsSpace c = true) :
    scpTokens l = [] := by
  unfold scpTokens pyStrip pySplit
  have h1 : l.dropWhile pyIsSpace = [] := by
    rw [List.dropWhile_eq_nil_iff]
    exact fun x hx => h x hx
  rw [h1]
  rfl

/-! Lemmas about association-list lookup. -/

theorem alookup_append_of_none {α : Type} {k : Str} {l1 : List (Str × α)}
    (l2 : List (Str × α)) (h : alookup k l1 = none) :
    alookup k (l1 ++ l2) = alookup k l2 := by
  induction l1 with
  | nil => rfl
  | cons e l ih =>
    by_cases he : e.1 = k
    · simp [alookup, he] at h
    · simp only [alookup, he, if_false, List.cons_append] at h ⊢
      exact ih h

theorem alookup_append_of_some {α : Type} {k : Str} {l1 : List (Str × α)}
    {v : α} (l2 : List (Str × α)) (h : alookup k l1 = some v) :
    alookup k (l1 ++ l2) = some v := by
  induction l1 with
  | nil => simp [alookup] at h
  | cons e l ih =>
    by_cases he : e.1 = k
    · simp only [alookup, he, if_true, List.cons_append] at h ⊢
      exact h
    · simp only [alookup, he, if_false, List.cons_append] at h ⊢
      exact ih h

theorem alookup_eq_none_iff {α : Type} (k : Str) (l : List (Str × α)) :
    alookup k l = none ↔ k ∉ l.map Prod.fst := by
  induction l with
  | nil => simp [alookup]
  | cons e l ih =>
    simp only [List.map_cons, List.mem_cons, alookup]
    by_cases he : e.1 = k
    · constructor
      · intro h; rw [if_pos he] at h; cases h
      · intro h; exact absurd (Or.inl he.symm) h
    · rw [if_neg he, ih]
      constructor
      · intro h hmem
        rcases hmem with rfl | hm
        · exact he rfl
        · exact h hm
      · intro h hm
        exact h (Or.inr hm)

theorem alookup_isSome_iff {α : Type} (k : Str) (l : List (Str × α)) :
    (alookup k l).isSome = true ↔ k ∈ l.map Prod.fst := by
  rcases h : alookup k l with _ | v
  · simp [(alookup_eq_none_iff k l).mp h]
  · have hne : ¬ alookup k l = none := by simp [h]
    simp only [Option.isSome_some, true_iff]
    by_contra hmem
    exact hne ((alookup_eq_none_iff k l).mpr hmem)

/-! Reduction and induction lemmas for `parseScpsAux`. -/

theorem parseScpsAux_cons_two {α : Type} (proc : Str → Except ScpErr α)
    (sp raw : Str) {key addr : Str} (htoks : scpTokens raw = [key, addr])
    (rest : List Str) (acc : List (Str × α)) (n : Nat) :
    parseScpsAux proc sp (raw :: rest) acc n =
      if (alookup key acc).isSome then .error (.duplicateKey key sp)
      else
        match proc addr with
        | .error e => .error e
        | .ok v => parseScpsAux proc sp rest (acc ++ [(key, v)]) (n + 1) := by
  conv_lhs => rw [parseScpsAux, htoks]

theorem parseScpsAux_cons_bad {α : Type} (proc : Str → Except ScpErr α)
    (sp raw : Str) (hbad : (scpTokens raw).length ≠ 2)
    (rest : List Str) (acc : List (Str × α)) (n : Nat) :
    parseScpsAux proc sp (raw :: rest) acc n = .error (.formatError (n + 1) raw) := by
  conv_lhs => rw [parseScpsAux]
  rcases h : scpTokens raw with _ | ⟨k, _ | ⟨a, _ | ⟨c, xs⟩⟩⟩
  · rfl
  · rfl
  · exact absurd (by rw [h]; rfl) hbad
  · rfl

theorem parseScpsAux_append {α : Type} (proc : Str → Except ScpErr α) (sp : Str) :
    ∀ (pre ls : List Str) (acc acc' : List (Str × α)) (n : Nat),
    parseScpsAux proc sp pre acc n = .ok acc' →
    parseScpsAux proc sp (pre ++ ls) acc n = parseScpsAux proc sp ls acc' (n + pre.length)
  | [], ls, acc, acc', n, h => by
    simp only [parseScpsAux] at h
    cases h
    simp
  | raw :: pre, ls, acc, acc', n, h => by
    rcases htoks : scpTokens raw with _ | ⟨k, _ | ⟨a, _ | ⟨c, xs⟩⟩⟩ <;>
      [skip; skip; skip; skip]
    case cons.cons.nil =>
      rw [parseScpsAux_cons_two proc sp raw htoks] at h
      rw [List.cons_append, parseScpsAux_cons_two proc sp raw htoks]
      by_cases hdup : (alookup k acc).isSome
      · rw [if_pos hdup] at h; cases h
      · rw [if_neg hdup] at h ⊢
        cases hproc : proc a with
        | error e => rw [hproc] at h; cases h
        | ok v =>
          simp only [hproc] at h ⊢
          rw [parseScpsAux_append proc sp pre ls _ acc' (n + 1) h]
          congr 1
          simp only [List.length_cons]
          omega
    all_goals
      rw [parseScpsAux_cons_bad proc sp raw (by rw [htoks]; simp) pre acc n] at h
      cases h

theorem parseScpsAux_ok_wellformed {α : Type} (proc : Str → Except ScpErr α) (sp : Str) :
    ∀ (lines : List Str) (acc res : List (Str × α)) (n : Nat),
    parseScpsAux proc sp lines acc n = .ok res →
    ∀ l ∈ lines, (scpTokens l).length = 2
  | [], _, _, _, _ => by simp
  | raw :: lines, acc, res, n, h => by
    rcases htoks : scpTokens raw with _ | ⟨k, _ | ⟨a, _ | ⟨c, xs⟩⟩⟩ <;>
      [skip; skip; skip; skip]
    case cons.cons.nil =>
      rw [parseScpsAux_cons_two proc sp raw htoks] at h
      by_cases hdup : (alookup k acc).isSome
      · rw [if_pos hdup] at h; cases h
      · rw [if_neg hdup] at h
        cases hproc : proc a with
        | error e => rw [hproc] at h; cases h
        | ok v =>
          simp only [hproc] at h
          intro l hl
          rcases List.mem_cons.mp hl with rfl | hmem
          · rw [htoks]; rfl
          · exact parseScpsAux_ok_wellformed proc sp lines _ res (n + 1) h l hmem
    all_goals
      rw [parseScpsAux_cons_bad proc sp raw (by rw [htoks]; simp) lines acc n] at h
      cases h

theorem parseScpsAux_ok_keys {α : Type} (proc : Str → Except ScpErr α) (sp : Str) :
    ∀ (lines : List Str) (acc res : List (Str × α)) (n : Nat),
    parseScpsAux proc sp lines acc n = .ok res →
    res.map Prod.fst = acc.map Prod.fst ++ lines.map lineKey
  | [], acc, res, n, h => by
    simp only [parseScpsAux] at h
    cases h
    simp
  | raw :: lines, acc, res, n, h => by
    rcases htoks : scpTokens raw with _ | ⟨k, _ | ⟨a, _ | ⟨c, xs⟩⟩⟩ <;>
      [skip; skip; skip; skip]
    case cons.cons.nil =>
      rw [parseScpsAux_cons_two proc sp raw htoks] at h
      by_cases hdup : (alookup k acc).isSome
      · rw [if_pos hdup] at h; cases h
      · rw [if_neg hdup] at h
        cases hproc : proc a with
        | error e => rw [hproc] at h; cases h
        | ok v =>
          simp only [hproc] at h
          have := parseScpsAux_ok_keys proc sp lines _ res (n + 1) h
          rw [this]
          have hlk : lineKey raw = k := by unfold lineKey; rw [htoks]; rfl
          simp [hlk]
    all_goals
      rw [parseScpsAux_cons_bad proc sp raw (by rw [htoks]; simp) lines acc n] at h
      cases h

theorem parseScpsAux_ok_nodup {α : Type} (proc : Str → Except ScpErr α) (sp : Str) :
    ∀ (lines : List Str) (acc res : List (Str × α)) (n : Nat),
    (acc.map Prod.fst).Nodup →
    parseScpsAux proc sp lines acc n = .ok res →
    (res.map Prod.fst).Nodup
  | [], acc, res, n, hnd, h => by
    simp only [parseScpsAux] at h
    cases h
    exact hnd
  | raw :: lines, acc, res, n, hnd, h => by
    rcases htoks : scpTokens raw with _ | ⟨k, _ | ⟨a, _ | ⟨c, xs⟩⟩⟩ <;>
      [skip; skip; skip; skip]
    case cons.cons.nil =>
      rw [parseScpsAux_cons_two proc sp raw htoks] at h
      by_cases hdup : (alookup k acc).isSome
      · rw [if_pos hdup] at h; cases h
      · rw [if_neg hdup] at h
        cases hproc : proc a with
        | error e => rw [hproc] at h; cases h
        | ok v =>
          simp only [hproc] at h
          have hfresh : k ∉ acc.map Prod.fst := by
            rw [← alookup_eq_none_iff]
            exact Option.not_isSome_iff_eq_none.mp hdup
          have hnd' : ((acc ++ [(k, v)]).map Prod.fst).Nodup := by
            rw [List.map_append]
            simp [List.nodup_append, hnd, hfresh]
          exact parseScpsAux_ok_nodup proc sp lines _ res (n + 1) hnd' h
    all_goals
      rw [parseScpsAux_cons_bad proc sp raw (by rw [htoks]; simp) lines acc n] at h
      cases h

/-! Characterisation of the archive writer's output. -/

theorem write_eq {μ : Type} (enc : μ → List Nat) (abspath : Str → Str)
    (st : AWState) (key : Str) (m : μ)
    (hark : st.ark_path ≠ dash) (hscp : st.scpOpen = true) :
    ArchiveWriter.write enc abspath st key m = some
      { ark_path := st.ark_path, scpOpen := st.scpOpen,
        archive := st.archive ++ recBytes enc (key, m),
        scpLines := st.scpLines ++
          [fmtLine key (abspath st.ark_path)
            (st.archive.length + (writeToken key).length)] } := by
  simp [ArchiveWriter.write, hark, hscp, recBytes, List.length_append,
    List.append_assoc]

theorem writeAll_eq {μ : Type} (enc : μ → List Nat) (abspath : Str → Str) :
    ∀ (rs : List (Str × μ)) (st : AWState),
    st.ark_path ≠ dash → st.scpOpen = true →
    writeAll enc abspath st rs = some
      { ark_path := st.ark_path, scpOpen := st.scpOpen,
        archive := st.archive ++ archOf enc rs,
        scpLines := st.scpLines ++
          linesOf enc (abspath st.ark_path) st.archive.length rs }
  | [], st, h1, h2 => by
    simp only [writeAll, archOf, linesOf, List.map_nil, List.flatten_nil,
      List.append_nil]
  | r :: rs, st, h1, h2 => by
    rw [writeAll, write_eq enc abspath st r.1 r.2 h1 h2]
    have hrec := writeAll_eq enc abspath rs
      { ark_path := st.ark_path, scpOpen := st.scpOpen,
        archive := st.archive ++ recBytes enc (r.1, r.2),
        scpLines := st.scpLines ++
          [fmtLine r.1 (abspath st.ark_path)
            (st.archive.length + (writeToken r.1).length)] } h1 h2
    show writeAll enc abspath
      { ark_path := st.ark_path, scpOpen := st.scpOpen,
        archive := st.archive ++ recBytes enc (r.1, r.2),
        scpLines := st.scpLines ++
          [fmtLine r.1 (abspath st.ark_path)
            (st.archive.length + (writeToken r.1).length)] } rs = _
    rw [hrec]
    simp only [Option.some.injEq, AWState.mk.injEq]
    refine ⟨trivial, trivial, ?_, ?_⟩
    · simp [archOf, List.append_assoc]
    · rw [linesOf]
      simp [List.length_append, recBytes, List.append_assoc]

/-! Parsing the written index lines back. -/

theorem parse_linesOf {μ : Type} (enc : μ → List Nat) (apath sp : Str)
    (hap : ∀ c ∈ apath, pyIsSpace c = false) :
    ∀ (rs : List (Str × μ)) (base : Nat) (acc : List (Str × (Str × Nat))) (n : Nat),
    (∀ r ∈ rs, r.1 ≠ [] ∧ ∀ c ∈ r.1, pyIsSpace c = false) →
    ((rs.map Prod.fst).Nodup) →
    (∀ r ∈ rs, alookup r.1 acc = none) →
    parseScpsAux scriptAddrProcessor sp (linesOf enc apath base rs) acc n
      = .ok (acc ++ entriesOf enc apath base rs)
  | [], base, acc, n, _, _, _ => by
    simp [linesOf, entriesOf, parseScpsAux]
  | r :: rs, base, acc, n, hwf, hnd, hfresh => by
    have hr := hwf r (by simp)
    have htoks := scpTokens_fmtLine r.1 apath (base + (writeToken r.1).length)
      hr.1 hr.2 hap
    rw [linesOf, parseScpsAux_cons_two _ sp _ htoks,
      if_neg (by simp [hfresh r (by simp)])]
    simp only [scriptAddrProcessor_fmt apath (base + (writeToken r.1).length)]
    have hfresh' : ∀ r' ∈ rs,
        alookup r'.1 (acc ++ [(r.1, (apath, base + (writeToken r.1).length))]) = none := by
      intro r' hr'
      rw [alookup_append_of_none _ (hfresh r' (by simp [hr']))]
      have hne : r.1 ≠ r'.1 := by
        intro heq
        have hmem : r'.1 ∈ rs.map Prod.fst := List.mem_map_of_mem Prod.fst hr'
        have : r.1 ∉ rs.map Prod.fst := by
          simp only [List.map_cons, List.nodup_cons] at hnd
          exact hnd.1
        exact this (heq ▸ hmem)
      simp [alookup, hne]
    rw [parse_linesOf enc apath sp hap rs (base + (recBytes enc r).length)
      _ (n + 1) (fun x hx => hwf x (by simp [hx]))
      (by simp only [List.map_cons, List.nodup_cons] at hnd; exact hnd.2) hfresh']
    rw [entriesOf]
    simp

theorem alookup_entriesOf {μ : Type} (enc : μ → List Nat) (apath : Str) :
    ∀ (rs : List (Str × μ)) (base : Nat) (i : Nat) (hi : i < rs.length),
    ((rs.map Prod.fst).Nodup) →
    alookup (rs.get ⟨i, hi⟩).1 (entriesOf enc apath base rs)
      = some (apath, base + (archOf enc (rs.take i)).length
          + (writeToken (rs.get ⟨i, hi⟩).1).length)
  | r :: rs, base, 0, hi, hnd => by
    simp [entriesOf, alookup, archOf]
  | r :: rs, base, i + 1, hi, hnd => by
    have hget : ((r :: rs).get ⟨i + 1, hi⟩) = rs.get ⟨i, Nat.lt_of_succ_lt_succ hi⟩ :=
      List.get_cons_succ
    have hne : r.1 ≠ (rs.get ⟨i, Nat.lt_of_succ_lt_succ hi⟩).1 := by
      intro heq
      have hmem : (rs.get ⟨i, Nat.lt_of_succ_lt_succ hi⟩).1 ∈ rs.map Prod.fst :=
        List.mem_map_of_mem Prod.fst (rs.get_mem i _)
      have : r.1 ∉ rs.map Prod.fst := by
        simp only [List.map_cons, List.nodup_cons] at hnd
        exact hnd.1
      exact this (heq ▸ hmem)
    rw [hget, entriesOf]
    show alookup _ ((r.1, _) :: _) = _
    rw [alookup, if_neg hne,
      alookup_entriesOf enc apath rs (base + (recBytes enc r).length) i
        (Nat.lt_of_succ_lt_succ hi)
        (by simp only [List.map_cons, List.nodup_cons] at hnd; exact hnd.2)]
    have harch : (archOf enc ((r :: rs).take (i + 1))).length
        = (recBytes enc r).length + (archOf enc (rs.take i)).length := by
      rw [List.take_succ_cons]
      simp [archOf]
    rw [harch]
    have : base + (recBytes enc r).length + (archOf enc (rs.take i)).length
        = base + ((recBytes enc r).length + (archOf enc (rs.take i)).length) := by
      omega
    rw [this]

theorem archOf_drop {μ : Type} (enc : μ → List Nat) :
    ∀ (rs : List (Str × μ)) (i : Nat) (hi : i < rs.length),
    (archOf enc rs).drop ((archOf enc (rs.take i)).length
        + (writeToken (rs.get ⟨i, hi⟩).1).length)
      = binSym ++ enc (rs.get ⟨i, hi⟩).2 ++ archOf enc (rs.drop (i + 1))
  | r :: rs, 0, hi => by
    have h0 : (archOf enc ((r :: rs).take 0)).length = 0 := rfl
    rw [h0, Nat.zero_add]
    show (archOf enc (r :: rs)).drop (writeToken r.1).length
        = binSym ++ enc r.2 ++ archOf enc rs
    rw [show archOf enc (r :: rs)
        = writeToken r.1 ++ (binSym ++ enc r.2 ++ archOf enc rs) from by
      simp [archOf, recBytes, List.append_assoc],
      List.drop_left]
  | r :: rs, i + 1, hi => by
    have hget : ((r :: rs).get ⟨i + 1, hi⟩) = rs.get ⟨i, Nat.lt_of_succ_lt_succ hi⟩ :=
      List.get_cons_succ
    have harch : archOf enc (r :: rs) = recBytes enc r ++ archOf enc rs := by
      simp [archOf]
    have htake : (archOf enc ((r :: rs).take (i + 1))).length
        = (recBytes enc r).length + (archOf enc (rs.take i)).length := by
      rw [List.take_succ_cons]
      simp [archOf]
    rw [hget, harch, htake, List.drop_succ_cons,
      show (recBytes enc r).length + (archOf enc (rs.take i)).length
          + (writeToken (rs.get ⟨i, Nat.lt_of_succ_lt_succ hi⟩).1).length
        = (recBytes enc r).length + ((archOf enc (rs.take i)).length
          + (writeToken (rs.get ⟨i, Nat.lt_of_succ_lt_succ hi⟩).1).length) from by omega,
      List.drop_append]
    exact archOf_drop enc rs i (Nat.lt_of_succ_lt_succ hi)

/-! Claim theorems. -/

/-- C2: for a Reader built from a valid index and any integer `i` with
`0 ≤ i < length()`, `__getitem__(i)` returns the same result as
`__getitem__(index_keys[i])`, the string key at position `i` of the
insertion-order key list. -/
theorem c2_int_selector_matches_key_selector {α β : Type}
    (proc : Str → Except ScpErr α) (sp : Str) (lines : List Str)
    (entries : List (Str × α)) (ld : Str → β)
    (hp : parse_scps proc sp lines = .ok entries)
    (i : Nat) (hi : i < (Reader.index_keys (Reader.mk entries)).length) :
    Reader.getitem ld (Reader.mk entries) (.inl (i : Int))
      = Reader.getitem ld (Reader.mk entries)
          (.inr ((Reader.index_keys (Reader.mk entries)).get ⟨i, hi⟩)) := by
  simp only [Reader.getitem]
  rw [dif_neg (by omega)]
  simp only [Int.toNat_natCast]

/-- C2 witness: on the two-line index `a 1`, `b 2`, selecting by `1` equals
selecting by the key at position `1`. -/
theorem c2_witness :
    parse_scps idAddrProcessor ['s'] [ "a 1\n".toList, "b 2\n".toList]
      = .ok [(['a'], ['1']), (['b'], ['2'])]
    ∧ Reader.getitem (fun k => k.length)
        (Reader.mk [(['a'], ['1']), (['b'], ['2'])]) (.inl ((1 : Nat) : Int))
      = Reader.getitem (fun k => k.length)
          (Reader.mk [(['a'], ['1']), (['b'], ['2'])])
          (.inr ((Reader.index_keys
            (Reader.mk [(['a'], ['1']), (['b'], ['2'])])).get ⟨1, by decide⟩)) :=
  ⟨rfl, c2_int_selector_matches_key_selector idAddrProcessor ['s']
    [ "a 1\n".toList, "b 2\n".toList] _ _ rfl 1 (by decide)⟩

/-- C3: integer selectors out of `[0, length())` fail with an out-of-range
error carrying the requested index and the bound; absent string keys fail
with a missing-key error carrying the key; a failing call returns the
receiver unchanged, so subsequent lookups behave exactly as before. -/
theorem c3_lookup_errors {α β : Type} (ld : Str → β) (r : Reader α) :
    (∀ i : Int, i < 0 ∨ (Reader.len r : Int) ≤ i →
      Reader.getitem ld r (.inl i) = .error (.outOfRange i (Reader.len r)))
    ∧ (∀ k : Str, alookup k r.index_dict = none →
      Reader.getitem ld r (.inr k) = .error (.missingKey k))
    ∧ (∀ sel sel' : Int ⊕ Str,
      (Reader.getitemCall ld r sel).2 = r ∧
      Reader.getitem ld ((Reader.getitemCall ld r sel).2) sel'
        = Reader.getitem ld r sel') := by
  have hlen : (Reader.index_keys r).length = Reader.len r := by
    simp [Reader.index_keys, Reader.len]
  refine ⟨?_, ?_, ?_⟩
  · intro i hi
    simp only [Reader.getitem]
    rw [dif_pos (by omega), hlen]
  · intro k hk
    simp only [Reader.getitem]
    rw [if_neg (by simp [hk])]
  · intro sel sel'
    exact ⟨rfl, rfl⟩

/-- C3 witness: on a two-entry reader, selector `5` is out of range with
bound `2`, selector `-1` likewise, and key `c` is missing. -/
theorem c3_witness :
    Reader.getitem (fun k => k.length)
      (Reader.mk [(['a'], (1 : Nat)), (['b'], 2)]) (.inl (5 : Int))
      = .error (.outOfRange 5 2)
    ∧ Reader.getitem (fun k => k.length)
      (Reader.mk [(['a'], (1 : Nat)), (['b'], 2)]) (.inl (-1 : Int))
      = .error (.outOfRange (-1) 2)
    ∧ Reader.getitem (fun k => k.length)
      (Reader.mk [(['a'], (1 : Nat)), (['b'], 2)]) (.inr ['c'])
      = .error (.missingKey ['c']) :=
  ⟨(c3_lookup_errors (fun k => k.length)
      (Reader.mk [(['a'], (1 : Nat)), (['b'], 2)])).1 5 (by decide),
   (c3_lookup_errors (fun k => k.length)
      (Reader.mk [(['a'], (1 : Nat)), (['b'], 2)])).1 (-1) (by decide),
   (c3_lookup_errors (fun k => k.length)
      (Reader.mk [(['a'], (1 : Nat)), (['b'], 2)])).2.1 ['c'] rfl⟩

/-- C4: iterating a Reader built from a valid index yields exactly
`length()` pairs, whose keys are the line keys of the index file in
insertion order, whose payloads are `_load` of the paired key; re-invoking
the iteration yields the same sequence. -/
theorem c4_reader_iteration {α β : Type}
    (proc : Str → Except ScpErr α) (sp : Str) (lines : List Str)
    (entries : List (Str × α)) (ld : Str → β)
    (hp : parse_scps proc sp lines = .ok entries) :
    (Reader.iter ld (Reader.mk entries)).length = Reader.len (Reader.mk entries)
    ∧ (Reader.iter ld (Reader.mk entries)).map Prod.fst = lines.map lineKey
    ∧ (∀ p ∈ Reader.iter ld (Reader.mk entries), p.2 = ld p.1)
    ∧ Reader.iter ld (Reader.mk entries) = Reader.iter ld (Reader.mk entries) := by
  have hkeys := parseScpsAux_ok_keys proc sp lines [] entries 0 hp
  simp only [List.map_nil, List.nil_append] at hkeys
  refine ⟨?_, ?_, ?_, rfl⟩
  · simp [Reader.iter, Reader.index_keys, Reader.len]
  · rw [← hkeys]
    simp [Reader.iter, Reader.index_keys, List.map_map]
  · intro p hp'
    simp only [Reader.iter, List.mem_map] at hp'
    obtain ⟨k, _, rfl⟩ := hp'
    rfl

/-- C4 witness: iterating the reader over the two-line index `a 1`, `b 2`
yields the two keys in line order with loaded payloads. -/
theorem c4_witness :
    (Reader.iter (fun k => k.length)
        (Reader.mk [(['a'], ['1']), (['b'], ['2'])])).map Prod.fst
      = [ "a 1\n".toList, "b 2\n".toList].map lineKey
    ∧ (Reader.iter (fun k => k.length)
        (Reader.mk [(['a'], ['1']), (['b'], ['2'])])).length = 2 :=
  ⟨(c4_reader_iteration idAddrProcessor ['s'] [ "a 1\n".toList, "b 2\n".toList]
      [(['a'], ['1']), (['b'], ['2'])] (fun k => k.length) rfl).2.1,
   (c4_reader_iteration idAddrProcessor ['s'] [ "a 1\n".toList, "b 2\n".toList]
      [(['a'], ['1']), (['b'], ['2'])] (fun k => k.length) rfl).1⟩

/-- C5 counterexample: the input `a 1`, `a 2`, `x` contains a line (`x`)
whose token count is not two, yet `parse_scps` raises the duplicate-key
error of the earlier lines, not a format error for the offending line. -/
theorem c5_counterexample :
    (scpTokens "x\n".toList).length ≠ 2
    ∧ parse_scps idAddrProcessor ['s']
        [ "a 1\n".toList, "a 2\n".toList, "x\n".toList]
      = .error (.duplicateKey ['a'] ['s'])
    ∧ ∀ (n : Nat) (raw : Str),
      parse_scps idAddrProcessor ['s']
          [ "a 1\n".toList, "a 2\n".toList, "x\n".toList]
        ≠ .error (.formatError n raw) := by
  refine ⟨by decide, rfl, ?_⟩
  intro n raw h
  rw [show parse_scps idAddrProcessor ['s']
      [ "a 1\n".toList, "a 2\n".toList, "x\n".toList]
    = .error (.duplicateKey ['a'] ['s']) from rfl] at h
  simp at h

/-- C5 (amended): when every line before the offending line parses cleanly
(two tokens, fresh key, address accepted), a line whose token count is not
two makes `parse_scps` fail with a format error carrying the 1-based number
of that line and its raw content; moreover an input containing any line
with token count other than two never yields an index at all. -/
theorem c5_format_error {α : Type} (proc : Str → Except ScpErr α) (sp : Str) :
    (∀ (pre : List Str) (bad : Str) (rest : List Str) (acc : List (Str × α)),
      parse_scps proc sp pre = .ok acc →
      (scpTokens bad).length ≠ 2 →
      parse_scps proc sp (pre ++ bad :: rest)
        = .error (.formatError (pre.length + 1) bad))
    ∧ (∀ (lines : List Str) (res : List (Str × α)),
      parse_scps proc sp lines = .ok res →
      ∀ l ∈ lines, (scpTokens l).length = 2) := by
  constructor
  · intro pre bad rest acc hpre hbad
    unfold parse_scps at hpre ⊢
    rw [parseScpsAux_append proc sp pre (bad :: rest) [] acc 0 hpre, Nat.zero_add,
      parseScpsAux_cons_bad proc sp bad hbad rest acc pre.length]
  · intro lines res h
    exact parseScpsAux_ok_wellformed proc sp lines [] res 0 h

/-- C5 witness: with a well-formed first line, the one-token second line is
reported as a format error at line 2 with its raw content, and the
well-formed-lines property holds of a successfully parsed input. -/
theorem c5_witness :
    parse_scps idAddrProcessor ['s'] [ "a 1\n".toList, "x\n".toList]
      = .error (.formatError 2 "x\n".toList)
    ∧ ((scpTokens "a 1\n".toList).length = 2) :=
  ⟨by
    have h := (c5_format_error idAddrProcessor ['s']).1 [ "a 1\n".toList]
      "x\n".toList [] [(['a'], ['1'])] rfl (by decide)
    simpa using h,
   (c5_format_error idAddrProcessor ['s']).2 [ "a 1\n".toList] [(['a'], ['1'])]
     rfl "a 1\n".toList (by simp)⟩

/-- C6 counterexample: the input `x`, `a 1`, `a 2` has two lines sharing
key `a`, yet `parse_scps` raises the format error of line 1, not a
duplicate-key error. -/
theorem c6_counterexample :
    lineKey "a 1\n".toList = lineKey "a 2\n".toList
    ∧ parse_scps idAddrProcessor ['s']
        [ "x\n".toList, "a 1\n".toList, "a 2\n".toList]
      = .error (.formatError 1 "x\n".toList)
    ∧ ∀ (k p : Str),
      parse_scps idAddrProcessor ['s']
          [ "x\n".toList, "a 1\n".toList, "a 2\n".toList]
        ≠ .error (.duplicateKey k p) := by
  refine ⟨rfl, rfl, ?_⟩
  intro k p h
  rw [show parse_scps idAddrProcessor ['s']
      [ "x\n".toList, "a 1\n".toList, "a 2\n".toList]
    = .error (.formatError 1 "x\n".toList) from rfl] at h
  simp at h

/-- C6 (amended): when the lines before a repeated-key line parse cleanly, a
line whose key is already present makes `parse_scps` fail with the
duplicate-key error carrying that key and the index-file identity; moreover
a successfully parsed input never has two lines with the same key, so an
earlier entry is never silently overwritten. -/
theorem c6_duplicate_key {α : Type} (proc : Str → Except ScpErr α) (sp : Str) :
    (∀ (pre : List Str) (dup : Str) (rest : List Str) (acc : List (Str × α))
      (k a : Str),
      parse_scps proc sp pre = .ok acc →
      scpTokens dup = [k, a] →
      (alookup k acc).isSome = true →
      parse_scps proc sp (pre ++ dup :: rest) = .error (.duplicateKey k sp))
    ∧ (∀ (lines : List Str) (res : List (Str × α)),
      parse_scps proc sp lines = .ok res →
      (lines.map lineKey).Nodup) := by
  constructor
  · intro pre dup rest acc k a hpre htoks hdup
    unfold parse_scps at hpre ⊢
    rw [parseScpsAux_append proc sp pre (dup :: rest) [] acc 0 hpre, Nat.zero_add,
      parseScpsAux_cons_two proc sp dup htoks rest acc pre.length,
      if_pos hdup]
  · intro lines res h
    have hkeys := parseScpsAux_ok_keys proc sp lines [] res 0 h
    have hnd := parseScpsAux_ok_nodup proc sp lines [] res 0 (by simp) h
    simp only [List.map_nil, List.nil_append] at hkeys
    rw [hkeys] at hnd
    exact hnd

/-- C6 witness: a repeat of key `a` at line 2 is reported as a duplicate-key
error carrying the key and the script identity, and a successfully parsed
input has pairwise distinct line keys. -/
theorem c6_witness :
    parse_scps idAddrProcessor ['s'] [ "a 1\n".toList, "a 2\n".toList]
      = .error (.duplicateKey ['a'] ['s'])
    ∧ ([ "a 1\n".toList, "b 2\n".toList].map lineKey).Nodup :=
  ⟨by
    have h := (c6_duplicate_key idAddrProcessor ['s']).1 [ "a 1\n".toList]
      "a 2\n".toList [] [(['a'], ['1'])] ['a'] ['2'] rfl (by decide) (by decide)
    simpa using h,
   (c6_duplicate_key idAddrProcessor ['s']).2
     [ "a 1\n".toList, "b 2\n".toList] [(['a'], ['1']), (['b'], ['2'])] rfl⟩

/-- C10 counterexample: the input `a 1`, `a 2`, `  ` contains a
whitespace-only line, yet `parse_scps` raises the duplicate-key error of
the earlier lines, not the token-count format error for that line. -/
theorem c10_counterexample :
    (∀ c ∈ "  \n".toList, pyIsSpace c = true)
    ∧ parse_scps idAddrProcessor ['s']
        [ "a 1\n".toList, "a 2\n".toList, "  \n".toList]
      = .error (.duplicateKey ['a'] ['s'])
    ∧ ∀ (n : Nat) (raw : Str),
      parse_scps idAddrProcessor ['s']
          [ "a 1\n".toList, "a 2\n".toList, "  \n".toList]
        ≠ .error (.formatError n raw) := by
  refine ⟨by decide, rfl, ?_⟩
  intro n raw h
  rw [show parse_scps idAddrProcessor ['s']
      [ "a 1\n".toList, "a 2\n".toList, "  \n".toList]
    = .error (.duplicateKey ['a'] ['s']) from rfl] at h
  simp at h

/-- C10 (amended): a blank or whitespace-only line strips and splits to zero
tokens, so when the lines before it parse cleanly, `parse_scps` fails with
the token-count format error for that line (1-based number, raw content);
blank lines are never skipped, and no input containing one ever yields an
index. -/
theorem c10_blank_line {α : Type} (proc : Str → Except ScpErr α) (sp : Str) :
    (∀ (pre : List Str) (blank : Str) (rest : List Str) (acc : List (Str × α)),
      parse_scps proc sp pre = .ok acc →
      (∀ c ∈ blank, pyIsSpace c = true) →
      parse_scps proc sp (pre ++ blank :: rest)
        = .error (.formatError (pre.length + 1) blank))
    ∧ (∀ (lines : List Str) (res : List (Str × α)),
      parse_scps proc sp lines = .ok res →
      ∀ l ∈ lines, ¬(∀ c ∈ l, pyIsSpace c = true)) := by
  constructor
  · intro pre blank rest acc hpre hblank
    unfold parse_scps at hpre ⊢
    rw [parseScpsAux_append proc sp pre (blank :: rest) [] acc 0 hpre, Nat.zero_add,
      parseScpsAux_cons_bad proc sp blank
        (by rw [scpTokens_all_space blank hblank]; simp) rest acc pre.length]
  · intro lines res h l hl hws
    have h2 := parseScpsAux_ok_wellformed proc sp lines [] res 0 h l hl
    rw [scpTokens_all_space l hws] at h2
    simp at h2

/-- C10 witness: after a clean first line, the whitespace-only second line
is reported as the token-count format error at line 2, and an input with a
whitespace-only line is never parsed successfully. -/
theorem c10_witness :
    parse_scps idAddrProcessor ['s'] [ "a 1\n".toList, "  \n".toList]
      = .error (.formatError 2 "  \n".toList)
    ∧ ¬(∀ c ∈ "b 2\n".toList, pyIsSpace c = true) :=
  ⟨by
    have h := (c10_blank_line idAddrProcessor ['s']).1 [ "a 1\n".toList]
      "  \n".toList [] [(['a'], ['1'])] rfl (by decide)
    simpa using h,
   (c10_blank_line idAddrProcessor ['s']).2
     [ "a 1\n".toList, "b 2\n".toList] [(['a'], ['1']), (['b'], ['2'])] rfl
     "b 2\n".toList (by simp)⟩

/-- C7: opening an address ending in the pipe marker in a write mode fails
immediately with the pipe configuration error — no subprocess is spawned and
no stream is returned — while the same address in either read mode spawns
the command and returns its output stream. -/
theorem c7_pipe_write_error (exists? : Str → Bool) (s : Str)
    (hs : s.getLast? = some '|') (mode : String)
    (hm : mode = "w" ∨ mode = "wb") :
    ext_fopen exists? (some s) mode = ([], .error .pipeReadOnly)
    ∧ ext_fopen exists? (some s) "r"
      = ([.spawn s.dropLast], .ok (some (.pipeOut s.dropLast)))
    ∧ ext_fopen exists? (some s) "rb"
      = ([.spawn s.dropLast], .ok (some (.pipeOut s.dropLast))) := by
  have hne : s ≠ [] := by
    intro h
    rw [h] at hs
    cases hs
  have hnd : s ≠ dash := by
    intro h
    rw [h] at hs
    cases hs
  refine ⟨?_, ?_, ?_⟩
  · rcases hm with rfl | rfl <;>
      simp [ext_fopen, pipe_fopen, hne, hnd, hs, Except.map]
  · simp [ext_fopen, pipe_fopen, hne, hnd, hs, Except.map]
  · simp [ext_fopen, pipe_fopen, hne, hnd, hs, Except.map]

/-- C7 witness: the pipe address `cat x |` fails in modes `w` and `wb` with
no effects, and spawns the command in mode `rb`. -/
theorem c7_witness :
    ext_fopen (fun _ => true) (some "cat x |".toList) "w"
      = ([], .error .pipeReadOnly)
    ∧ ext_fopen (fun _ => true) (some "cat x |".toList) "wb"
      = ([], .error .pipeReadOnly)
    ∧ ext_fopen (fun _ => true) (some "cat x |".toList) "rb"
      = ([.spawn "cat x ".toList], .ok (some (.pipeOut "cat x ".toList))) :=
  ⟨(c7_pipe_write_error (fun _ => true) "cat x |".toList rfl "w" (Or.inl rfl)).1,
   (c7_pipe_write_error (fun _ => true) "cat x |".toList rfl "wb" (Or.inr rfl)).1,
   (c7_pipe_write_error (fun _ => true) "cat x |".toList rfl "w" (Or.inl rfl)).2.2⟩

/-- Field facts about a successful `__enter__`: the archive path is the
writer's, and an open script stream requires a truthy script path. -/
theorem enter_fields (exists? : Str → Bool) (w : Writer) (st : AWState)
    (h : Writer.enter exists? w = .ok st) :
    st.ark_path = w.ark_path
    ∧ (st.scpOpen = true → ∃ s, w.scp_path = some s ∧ s ≠ []) := by
  unfold Writer.enter at h
  cases hfa : (ext_fopen exists? (some w.ark_path) "wb").2 with
  | error e => rw [hfa] at h; cases h
  | ok arkS =>
    rw [hfa] at h
    cases hfs : (ext_fopen exists? w.scp_path "w").2 with
    | error e => rw [hfs] at h; cases h
    | ok scpS =>
      rw [hfs] at h
      cases h
      refine ⟨rfl, fun hopen => ?_⟩
      cases hsp : w.scp_path with
      | none =>
        rw [hsp, show (ext_fopen exists? none "w").2 = Except.ok none from rfl]
          at hfs
        cases hfs
        simp at hopen
      | some s =>
        by_cases hsnil : s = []
        · subst hsnil
          rw [hsp,
            show (ext_fopen exists? (some []) "w").2 = Except.ok none from rfl]
            at hfs
          cases hfs
          simp at hopen
        · exact ⟨s, rfl, hsnil⟩

/-- C9: a constructed-and-entered archive writer never has an open index
stream while the archive goes to standard output (construction nullifies the
script path in that case), and under that invariant every `write` call
succeeds — the offset referenced when formatting the index line is always
defined — and preserves both the paths and the invariant. -/
theorem c9_offset_invariant {μ : Type} (enc : μ → List Nat)
    (abspath : Str → Str) (exists? : Str → Bool) :
    (∀ (ark : Str) (scp : Option Str), ark = dash → truthy scp = true →
      Writer.init ark scp = ({ ark_path := ark, scp_path := none }, true))
    ∧ (∀ (ark : Str) (scp : Option Str) (w : Writer) (warn : Bool) (st : AWState),
      Writer.init ark scp = (w, warn) →
      Writer.enter exists? w = .ok st →
      st.scpOpen = true → st.ark_path ≠ dash)
    ∧ (∀ st : AWState, (st.scpOpen = true → st.ark_path ≠ dash) →
      ∀ (key : Str) (m : μ),
      ∃ st', ArchiveWriter.write enc abspath st key m = some st'
        ∧ st'.ark_path = st.ark_path ∧ st'.scpOpen = st.scpOpen
        ∧ (st'.scpOpen = true → st'.ark_path ≠ dash)) := by
  refine ⟨?_, ?_, ?_⟩
  · intro ark scp h1 h2
    unfold Writer.init
    rw [if_pos ⟨h1, h2⟩]
  · intro ark scp w warn st hinit henter hopen
    obtain ⟨hark_eq, hscp⟩ := enter_fields exists? w st henter
    obtain ⟨s, hsp, hsne⟩ := hscp hopen
    unfold Writer.init at hinit
    by_cases hcase : ark = dash ∧ truthy scp = true
    · rw [if_pos hcase] at hinit
      cases hinit
      cases hsp
    · rw [if_neg hcase] at hinit
      cases hinit
      dsimp only at hsp hark_eq
      rw [hark_eq]
      intro hdash
      apply hcase
      refine ⟨hdash, ?_⟩
      rw [hsp]
      simp [truthy, hsne]
  · intro st hinv key m
    by_cases hscp : st.scpOpen = true
    · refine ⟨_, write_eq enc abspath st key m (hinv hscp) hscp, rfl, rfl, ?_⟩
      exact fun h => hinv hscp
    · refine ⟨{ st with
          archive := st.archive ++ writeToken key ++ binSym ++ enc m },
        ?_, rfl, rfl, fun h => hinv h⟩
      simp [ArchiveWriter.write, hscp]

/-- C9 witness: for a writer on a plain archive path with an index path, the
invariant holds after entry and a concrete write succeeds. -/
theorem c9_witness :
    (Writer.init dash (some "x.scp".toList)
      = ({ ark_path := dash, scp_path := none }, true))
    ∧ ((Writer.init "f".toList (some "x.scp".toList)
      = ({ ark_path := "f".toList, scp_path := some "x.scp".toList }, false))
    ∧ (Writer.enter (fun _ => true)
        { ark_path := "f".toList, scp_path := some "x.scp".toList }
      = .ok { ark_path := "f".toList, scpOpen := true,
              archive := [], scpLines := [] })
    ∧ "f".toList ≠ dash)
    ∧ ArchiveWriter.write (fun m : List Nat => m) (fun p => p)
        { ark_path := "f".toList, scpOpen := true, archive := [], scpLines := [] }
        ['k'] [7]
      = some { ark_path := "f".toList, scpOpen := true,
               archive := [107, 32, 0, 66, 7],
               scpLines := [ "k\tf:2\n".toList] } :=
  ⟨(c9_offset_invariant (fun m : List Nat => m) (fun p => p) (fun _ => true)).1
      dash (some "x.scp".toList) rfl rfl,
   ⟨rfl, rfl,
    (c9_offset_invariant (fun m : List Nat => m) (fun p => p) (fun _ => true)).2.1
      "f".toList (some "x.scp".toList) _ _ _ rfl rfl rfl⟩,
   by
    obtain ⟨st', hw, _⟩ :=
      (c9_offset_invariant (fun m : List Nat => m) (fun p => p)
        (fun _ => true)).2.2
        { ark_path := "f".toList, scpOpen := true, archive := [], scpLines := [] }
        (fun _ => by decide) ['k'] [7]
    rw [show ArchiveWriter.write (fun m : List Nat => m) (fun p => p)
        { ark_path := "f".toList, scpOpen := true, archive := [], scpLines := [] }
        ['k'] [7]
      = some { ark_path := "f".toList, scpOpen := true,
               archive := [107, 32, 0, 66, 7],
               scpLines := [ "k\tf:2\n".toList] } from by rfl]⟩

/-- C1: writing any duplicate-free sequence of records through
`ArchiveWriter` with an index and reading each key back through a
`ScriptReader` over that index returns exactly the written payload, for any
position-symmetric codec (`dec` consumes precisely what `enc` framed,
regardless of what follows).  In particular the index parses to one entry
per record whose recorded offset is exactly the archive position at which
`_load` seeks: the sentinel and the record's payload start right there. -/
theorem c1_round_trip {μ : Type} (enc : μ → List Nat) (dec : List Nat → Option μ)
    (hcodec : ∀ (m : μ) (extra : List Nat), dec (enc m ++ extra) = some m)
    (records : List (Str × μ))
    (hnodup : (records.map Prod.fst).Nodup)
    (hkeys : ∀ r ∈ records, r.1 ≠ [] ∧ ∀ c ∈ r.1, pyIsSpace c = false)
    (ark : Str) (hark : ark ≠ dash) (abspath : Str → Str)
    (hap : ∀ c ∈ abspath ark, pyIsSpace c = false)
    (stF : AWState)
    (hw : writeAll enc abspath
      { ark_path := ark, scpOpen := true, archive := [], scpLines := [] } records
      = some stF)
    (fs : Str → Option (List Nat)) (hfs : fs (abspath ark) = some stF.archive)
    (sp : Str) (i : Nat) (hi : i < records.length) :
    parse_scps scriptAddrProcessor sp stF.scpLines
      = .ok (entriesOf enc (abspath ark) 0 records)
    ∧ alookup (records.get ⟨i, hi⟩).1 (entriesOf enc (abspath ark) 0 records)
      = some (abspath ark, (archOf enc (records.take i)).length
          + (writeToken (records.get ⟨i, hi⟩).1).length)
    ∧ scriptReaderGet sp fs dec stF.scpLines (records.get ⟨i, hi⟩).1
      = some ((records.get ⟨i, hi⟩).2) := by
  have hchar := writeAll_eq enc abspath records
    { ark_path := ark, scpOpen := true, archive := [], scpLines := [] } hark rfl
  rw [hw] at hchar
  have hstF := Option.some.inj hchar
  have harchive : stF.archive = archOf enc records := by
    rw [hstF]
    simp
  have hlines : stF.scpLines = linesOf enc (abspath ark) 0 records := by
    rw [hstF]
    simp
  have hparse2 : parse_scps scriptAddrProcessor sp
      (linesOf enc (abspath ark) 0 records)
      = .ok (entriesOf enc (abspath ark) 0 records) := by
    unfold parse_scps
    rw [parse_linesOf enc (abspath ark) sp hap records 0 [] 0 hkeys hnodup
      (fun r _ => rfl)]
    rw [List.nil_append]
  have halookup2 := alookup_entriesOf enc (abspath ark) records 0 i hi hnodup
  rw [Nat.zero_add] at halookup2
  have hdrop : stF.archive.drop ((archOf enc (records.take i)).length
      + (writeToken (records.get ⟨i, hi⟩).1).length)
      = binSym ++ enc ((records.get ⟨i, hi⟩).2)
        ++ archOf enc (records.drop (i + 1)) := by
    rw [harchive]
    exact archOf_drop enc records i hi
  have hload : ScriptReader.load dec fs
      (abspath ark, (archOf enc (records.take i)).length
        + (writeToken (records.get ⟨i, hi⟩).1).length)
      = some ((records.get ⟨i, hi⟩).2) := by
    simp only [ScriptReader.load, hfs]
    rw [hdrop,
      show binSym ++ enc ((records.get ⟨i, hi⟩).2)
          ++ archOf enc (records.drop (i + 1))
        = binSym ++ (enc ((records.get ⟨i, hi⟩).2)
          ++ archOf enc (records.drop (i + 1))) from
        List.append_assoc binSym _ _,
      List.take_left, List.drop_left, if_pos rfl,
      hcodec ((records.get ⟨i, hi⟩).2) (archOf enc (records.drop (i + 1)))]
  refine ⟨?_, halookup2, ?_⟩
  · rw [hlines]
    exact hparse2
  · rw [hlines]
    simp only [scriptReaderGet, hparse2, halookup2]
    exact hload

/-- Demonstration payload codec for the round-trip witness: a length-prefix
framing, trivially position-symmetric. -/
def lenEnc (m : List Nat) : List Nat := m.length :: m

/-- Decoder matching `lenEnc`: consume the prefixed length, then that many
payload elements, ignoring whatever follows. -/
def lenDec : List Nat → Option (List Nat)
  | [] => none
  | n :: rest => if n ≤ rest.length then some (rest.take n) else none

theorem lenCodec (m extra : List Nat) : lenDec (lenEnc m ++ extra) = some m := by
  simp only [lenEnc, lenDec, List.cons_append]
  rw [if_pos (by simp), List.take_left]

/-- C1 witness: two records written to archive `f` (absolute path `/f`) give
index lines with offsets 2 and 9, and reading key `b` back through the
script-reader pipeline returns its payload. -/
theorem c1_witness :
    scriptReaderGet ['s']
      (fun _ => some [97, 32, 0, 66, 2, 3, 4, 98, 32, 0, 66, 1, 9]) lenDec
      [ "a\t/f:2\n".toList, "b\t/f:9\n".toList] ['b'] = some [9] := by
  have h := (c1_round_trip lenEnc lenDec lenCodec
    [(['a'], [3, 4]), (['b'], [9])] (by decide) (by decide)
    ['f'] (by decide) (fun p => '/' :: p) (by decide)
    { ark_path := ['f'], scpOpen := true,
      archive := [97, 32, 0, 66, 2, 3, 4, 98, 32, 0, 66, 1, 9],
      scpLines := [ "a\t/f:2\n".toList, "b\t/f:9\n".toList] }
    (by rfl) (fun _ => some [97, 32, 0, 66, 2, 3, 4, 98, 32, 0, 66, 1, 9]) (by rfl)
    ['s'] 1 (by decide)).2.2
  exact h

end DataHandler
